import Mathlib

/-!
Verification of the `TopologyLayer` topological aggregation layer of the
TOGL repository (files `topognn/models.py` and `topognn/topolayer.py`).

The embedding uses rational numbers for the floating-point scalars of the
source (filtration values, coordinate activations, layer parameters), lists
of rows for tensors, and `Option` for computations that can raise.  Both
source files define a `TopologyLayer` class; definitions below carry the
suffix `M` (from `models.py`) or `T` (from `topolayer.py`) when the two
files differ, and no suffix when the code is identical in both.
-/

/-- Rows of scalar values: one tensor row, e.g. the per-channel filtration
values of one vertex. -/
abbrev Vec := List ℚ

/-- A 2-d tensor as a list of rows. -/
abbrev Mat := List Vec

/-- An edge of the `edge_index` tensor: (source vertex, destination vertex). -/
abbrev Edge := ℕ × ℕ

/-- Embeds the edge-filtration computation shared by both files
(`topolayer.py` lines 110-111, `models.py` lines 124-125):
`filtered_e_, _ = torch.max(torch.stack((filtered_v_[edge_index[0]],
filtered_v_[edge_index[1]])), axis=0)`.
Row `e` of the result is the elementwise maximum of the two endpoint rows of
`filtered_v_`; indexing a tensor with an out-of-range vertex index raises,
which the embedding renders as `none`. -/
def computeEdgeFiltration (vf : Mat) : List Edge → Option Mat
  | [] => some []
  | e :: rest =>
    match vf.get? e.1, vf.get? e.2, computeEdgeFiltration vf rest with
    | some ru, some rv, some tail => some (List.zipWith max ru rv :: tail)
    | _, _, _ => none

theorem getD_zipWith_max (a b : Vec) (f : ℕ) (ha : f < a.length) (hb : f < b.length) :
    (List.zipWith max a b).getD f 0 = max (a.getD f 0) (b.getD f 0) := by
  have hlen : f < (List.zipWith max a b).length := by
    simpa [List.length_zipWith] using And.intro ha hb
  rw [List.getD_eq_getElem _ _ hlen, List.getD_eq_getElem _ _ ha,
    List.getD_eq_getElem _ _ hb, List.getElem_zipWith]

theorem computeEdgeFiltration_some_get (vf : Mat) (edges : List Edge) (ef : Mat)
    (hef : computeEdgeFiltration vf edges = some ef)
    (i : ℕ) (u v : ℕ) (he : edges.get? i = some (u, v)) :
    ∃ ru rv, vf.get? u = some ru ∧ vf.get? v = some rv ∧
      ef.get? i = some (List.zipWith max ru rv) := by
  induction edges generalizing ef i with
  | nil => simp at he
  | cons e rest ih =>
    revert hef
    unfold computeEdgeFiltration
    cases h1 : vf.get? e.1 with
    | none => intro hef; exact absurd hef (by simp)
    | some ru =>
      cases h2 : vf.get? e.2 with
      | none => intro hef; exact absurd hef (by simp)
      | some rv =>
        cases h3 : computeEdgeFiltration vf rest with
        | none => intro hef; exact absurd hef (by simp)
        | some tail =>
          intro hef
          have hef' : ef = List.zipWith max ru rv :: tail := by
            simpa using hef.symm
          subst hef'
          cases i with
          | zero =>
            have : e = (u, v) := by simpa using he
            subst this
            exact ⟨ru, rv, h1, h2, rfl⟩
          | succ j =>
            have he' : rest.get? j = some (u, v) := by simpa using he
            obtain ⟨ru', rv', hu', hv', hef''⟩ := ih tail h3 j he'
            exact ⟨ru', rv', hu', hv', by simpa using hef''⟩

/-- C1: for every edge (u,v) whose endpoints are in range for the vertex
filtration matrix, and every filtration channel f in range, the edge
filtration value computed by `compute_persistence` equals
max(vertexFiltration[u,f], vertexFiltration[v,f]). -/
theorem edge_filtration_is_endpoint_max (vf : Mat) (edges : List Edge) (ef : Mat)
    (hef : computeEdgeFiltration vf edges = some ef)
    (i : ℕ) (u v : ℕ) (he : edges.get? i = some (u, v))
    (f : ℕ) (hu : f < (vf.getD u []).length) (hv : f < (vf.getD v []).length) :
    (ef.getD i []).getD f 0 = max ((vf.getD u []).getD f 0) ((vf.getD v []).getD f 0) := by
  obtain ⟨ru, rv, hru, hrv, hefi⟩ := computeEdgeFiltration_some_get vf edges ef hef i u v he
  have hgu : vf.getD u [] = ru := by
    rw [List.getD_eq_getElem?_getD, ← List.get?_eq_getElem?, hru]
    rfl
  have hgv : vf.getD v [] = rv := by
    rw [List.getD_eq_getElem?_getD, ← List.get?_eq_getElem?, hrv]
    rfl
  have hgi : ef.getD i [] = List.zipWith max ru rv := by
    rw [List.getD_eq_getElem?_getD, ← List.get?_eq_getElem?, hefi]
    rfl
  rw [hgu] at hu
  rw [hgv] at hv
  rw [hgi, hgu, hgv]
  exact getD_zipWith_max ru rv f hu hv

/-- Witness for C1 at a concrete input: two vertices with two channels and a
single edge (0,1); channel 1 of the edge row is max 1 5 = 5. -/
theorem edge_filtration_is_endpoint_max_witness :
    (([[(3 : ℚ), 5]] : Mat).getD 0 []).getD 1 0 =
      max ((([[(3 : ℚ), 1], [2, 5]] : Mat).getD 0 []).getD 1 0)
        ((([[(3 : ℚ), 1], [2, 5]] : Mat).getD 1 []).getD 1 0) :=
  edge_filtration_is_endpoint_max [[(3 : ℚ), 1], [2, 5]] [(0, 1)] [[(3 : ℚ), 5]]
    rfl 0 0 1 rfl 1 (by decide) (by decide)

/-- Batches as seen by `remove_duplicate_edges`: the `edge_index` tensor as a
list of edges and the edge-slice offsets stored in
`batch.__slices__` under key edge_index. -/
structure PyGBatch where
  edges : List Edge
  edgeSlices : List ℕ
deriving DecidableEq

/-- The elementwise keep test of topolayer.py line 247:
`correct_idx = batch.edge_index[0] <= batch.edge_index[1]`. -/
def keepEdge (e : Edge) : Bool := e.1 ≤ e.2

/-- The elements of a list lying in slice positions [a, b), i.e. `l[a:b]`. -/
def sliceList (a b : ℕ) (l : List α) : List α := (l.drop a).take (b - a)

/-- Per-graph retained-edge counts of topolayer.py lines 242-249:
`n_edges = scatter(correct_idx.long(), batch_e, reduce="sum")` where
`batch_e` repeats graph id g once per edge of slice [slices[g], slices[g+1]).
On a well-formed offset array this is the count of kept edges per slice. -/
def retainedCounts (edges : List Edge) : List ℕ → List ℕ
  | a :: b :: rest => (sliceList a b edges).countP keepEdge :: retainedCounts edges (b :: rest)
  | _ => []

/-- Embeds `torch.cumsum(torch.cat((torch.zeros(1), n_edges)), 0)` of
topolayer.py line 253: the running sums starting at `acc`. -/
def cumSumFrom (acc : ℕ) : List ℕ → List ℕ
  | [] => [acc]
  | c :: cs => acc :: cumSumFrom (acc + c) cs

/-- The mutation body of `TopologyLayer.remove_duplicate_edges`
(topolayer.py lines 239-256), applied to the cloned batch: filter the edges by
`correct_idx` and store the cumulative retained counts as the new offsets. -/
def removeDuplicateEdgesBody (c : PyGBatch) : PyGBatch :=
  PyGBatch.mk (c.edges.filter keepEdge)
    (cumSumFrom 0 (retainedCounts c.edges c.edgeSlices))

/-- Embeds `batch.clone()` of topolayer.py line 238: a deep copy, i.e. a batch
with the same contents. -/
def cloneBatch (b : PyGBatch) : PyGBatch := b

/-- Embeds `TopologyLayer.remove_duplicate_edges` (topolayer.py lines 235-256):
clone the batch, then mutate the clone. -/
def removeDuplicateEdgesT (b : PyGBatch) : PyGBatch :=
  removeDuplicateEdgesBody (cloneBatch b)

/-- Embeds the call shape of `remove_duplicate_edges`: the method receives the
caller's batch, clones it, mutates only the clone, and returns the clone.  The
first component is the caller's batch after the call, the second the returned
batch. -/
def removeDuplicateEdgesCall (b : PyGBatch) : PyGBatch × PyGBatch :=
  (b, removeDuplicateEdgesBody (cloneBatch b))

/-- Modelled from the spec: `remove_duplicate_edges` is imported in models.py
from `topognn.data_utils`, which is not among the sources.  Spec section 6:
the step keeps the canonical direction (source index less than or equal to
destination index) and rewrites edge-slice offsets to the reduced per-graph
counts — the same computation as the in-source method of topolayer.py. -/
def removeDuplicateEdgesDU (b : PyGBatch) : PyGBatch :=
  PyGBatch.mk (b.edges.filter keepEdge)
    (cumSumFrom 0 (retainedCounts b.edges b.edgeSlices))

/-- Embeds the edge routing of `TopologyLayer.forward` in models.py
(lines 196-201): `batch = remove_duplicate_edges(batch)` runs first, and
`compute_persistence` then reads `batch.edge_index` of the reduced batch. -/
def forwardPersistenceEdgesM (b : PyGBatch) : List Edge :=
  (removeDuplicateEdgesDU b).edges

/-- Embeds the edge routing of `TopologyLayer.forward` in topolayer.py
(lines 192-203): the duplicate-removal call of lines 195-196 is commented out,
so `compute_persistence` receives the caller's `edge_index` unchanged. -/
def forwardPersistenceEdgesT (edge_index : List Edge) : List Edge := edge_index

theorem countP_take_add_sliceList (p : α → Bool) (l : List α) (a bnd : ℕ) (hab : a ≤ bnd) :
    (l.take a).countP p + (sliceList a bnd l).countP p = (l.take bnd).countP p := by
  have h : l.take bnd = l.take a ++ (l.drop a).take (bnd - a) := by
    rw [← List.take_add, Nat.add_sub_cancel' hab]
  rw [h, List.countP_append, sliceList]

theorem cumSumFrom_ne_nil (acc : ℕ) (cs : List ℕ) : cumSumFrom acc cs ≠ [] := by
  cases cs <;> simp [cumSumFrom]

theorem cumSumFrom_head (acc : ℕ) (cs : List ℕ) : (cumSumFrom acc cs).head? = some acc := by
  cases cs <;> simp [cumSumFrom]

theorem cumSumFrom_getLast (acc : ℕ) (cs : List ℕ) :
    (cumSumFrom acc cs).getLast? = some (acc + cs.sum) := by
  induction cs generalizing acc with
  | nil => simp [cumSumFrom]
  | cons c cs ih =>
    cases hc : cumSumFrom (acc + c) cs with
    | nil => exact absurd hc (cumSumFrom_ne_nil _ _)
    | cons d ds =>
      have hl := ih (acc + c)
      rw [hc] at hl
      simp only [cumSumFrom, hc, List.getLast?_cons_cons, hl, List.sum_cons]
      congr 1
      omega

theorem retainedCounts_sum (edges : List Edge) (s : ℕ) (rest : List ℕ) (L : ℕ)
    (hmono : List.Chain' (fun x y => x ≤ y) (s :: rest))
    (hlast : (s :: rest).getLast? = some L) :
    (retainedCounts edges (s :: rest)).sum + (edges.take s).countP keepEdge
      = (edges.take L).countP keepEdge := by
  induction rest generalizing s with
  | nil =>
    have hL : L = s := by simpa using hlast.symm
    subst hL
    simp [retainedCounts]
  | cons b rest ih =>
    have hsb : s ≤ b := List.chain'_cons.mp hmono |>.1
    have hmono' : List.Chain' (fun x y => x ≤ y) (b :: rest) :=
      List.chain'_cons.mp hmono |>.2
    have hlast' : (b :: rest).getLast? = some L := by
      rw [List.getLast?_cons_cons] at hlast; exact hlast
    have hih := ih b hmono' hlast'
    have htel := countP_take_add_sliceList keepEdge edges s b hsb
    simp only [retainedCounts, List.sum_cons]
    omega

/-- C2 (amended): `remove_duplicate_edges` keeps exactly the edges whose source
index is at most their destination index, preserving relative order, and
rewrites the offsets to the cumulative per-graph retained counts with first
offset 0 and last offset the total retained count; the removal runs before the
persistence computation in models.py's forward, while topolayer.py's forward
passes its `edge_index` to the persistence computation unfiltered. -/
theorem remove_duplicate_edges_spec (b : PyGBatch)
    (h0 : b.edgeSlices.head? = some 0)
    (hlast : b.edgeSlices.getLast? = some b.edges.length)
    (hmono : List.Chain' (fun x y => x ≤ y) b.edgeSlices) :
    (removeDuplicateEdgesT b).edges = b.edges.filter keepEdge ∧
    List.Sublist (removeDuplicateEdgesT b).edges b.edges ∧
    (∀ e : Edge, e ∈ (removeDuplicateEdgesT b).edges ↔ e ∈ b.edges ∧ e.1 ≤ e.2) ∧
    (removeDuplicateEdgesT b).edgeSlices.head? = some 0 ∧
    (removeDuplicateEdgesT b).edgeSlices.getLast? =
      some (removeDuplicateEdgesT b).edges.length ∧
    forwardPersistenceEdgesM b = (removeDuplicateEdgesDU b).edges ∧
    forwardPersistenceEdgesT b.edges = b.edges := by
  refine ⟨rfl, List.filter_sublist _, ?_, ?_, ?_, rfl, rfl⟩
  · intro e
    simp [removeDuplicateEdgesT, removeDuplicateEdgesBody, cloneBatch,
      List.mem_filter, keepEdge]
  · exact cumSumFrom_head 0 _
  · cases hsl : b.edgeSlices with
    | nil => rw [hsl] at h0; simp at h0
    | cons s rest =>
      have hs0 : s = 0 := by
        rw [hsl] at h0
        simp only [List.head?_cons, Option.some.injEq] at h0
        exact h0
      subst hs0
      rw [hsl] at hlast hmono
      have hsum := retainedCounts_sum b.edges 0 rest b.edges.length hmono hlast
      simp only [List.take_zero, List.countP_nil, Nat.add_zero, List.take_length] at hsum
      simp only [removeDuplicateEdgesT, removeDuplicateEdgesBody, cloneBatch]
      rw [hsl, cumSumFrom_getLast, Nat.zero_add, hsum, List.countP_eq_length_filter]

/-- Witness for C2 (amended) at a concrete input: the batch with edges
[(0,1),(1,0)] and offsets [0,2] keeps exactly [(0,1)] with offsets [0,1]. -/
theorem remove_duplicate_edges_spec_witness :
    (removeDuplicateEdgesT (PyGBatch.mk [(0, 1), (1, 0)] [0, 2])).edges =
      [(0, 1), (1, 0)].filter keepEdge ∧
    List.Sublist (removeDuplicateEdgesT (PyGBatch.mk [(0, 1), (1, 0)] [0, 2])).edges
      [(0, 1), (1, 0)] ∧
    (∀ e : Edge,
      e ∈ (removeDuplicateEdgesT (PyGBatch.mk [(0, 1), (1, 0)] [0, 2])).edges ↔
        e ∈ [(0, 1), (1, 0)] ∧ e.1 ≤ e.2) ∧
    (removeDuplicateEdgesT (PyGBatch.mk [(0, 1), (1, 0)] [0, 2])).edgeSlices.head? =
      some 0 ∧
    (removeDuplicateEdgesT (PyGBatch.mk [(0, 1), (1, 0)] [0, 2])).edgeSlices.getLast? =
      some (removeDuplicateEdgesT (PyGBatch.mk [(0, 1), (1, 0)] [0, 2])).edges.length ∧
    forwardPersistenceEdgesM (PyGBatch.mk [(0, 1), (1, 0)] [0, 2]) =
      (removeDuplicateEdgesDU (PyGBatch.mk [(0, 1), (1, 0)] [0, 2])).edges ∧
    forwardPersistenceEdgesT [(0, 1), (1, 0)] = [(0, 1), (1, 0)] :=
  remove_duplicate_edges_spec (PyGBatch.mk [(0, 1), (1, 0)] [0, 2])
    (by decide) (by decide) (by simp)

/-- C2 counterexample: in topolayer.py's forward the duplicate-removal call is
commented out, so on a batch holding both directed copies of an undirected
edge the persistence computation receives both copies, not the reduced list
the claim requires. -/
theorem forward_no_duplicate_removal_counterexample :
    forwardPersistenceEdgesT [(0, 1), (1, 0)] ≠
      (removeDuplicateEdgesT (PyGBatch.mk [(0, 1), (1, 0)] [0, 2])).edges := by
  decide

/-- C9: the caller's batch is unchanged by `remove_duplicate_edges`: the method
mutates only the clone it creates, and the returned batch is the reduced one. -/
theorem remove_duplicate_edges_frame (b : PyGBatch) :
    (removeDuplicateEdgesCall b).1 = b ∧
    (removeDuplicateEdgesCall b).1.edges = b.edges ∧
    (removeDuplicateEdgesCall b).1.edgeSlices = b.edgeSlices ∧
    (removeDuplicateEdgesCall b).2 = removeDuplicateEdgesT b :=
  ⟨rfl, rfl, rfl, rfl⟩

/-- Zero row of width d, the value of `tensor.sum(axis=0)` on an empty
selection of rows. -/
def zeroVec (d : ℕ) : Vec := List.replicate d 0

/-- Elementwise sum of two rows. -/
def addVec (a b : Vec) : Vec := List.zipWith (fun x y => x + y) a b

/-- `tensor.sum(axis=0)` over a list of rows of width d. -/
def vecSum (d : ℕ) (rows : Mat) : Vec := rows.foldr addVec (zeroVec d)

/-- Boolean-mask row selection `activations_el_[mask_el]`. -/
def maskedRows (act : Mat) (mask : List Bool) : Mat :=
  ((act.zip mask).filter (fun r => r.2)).map (fun r => r.1)

/-- The adjacent offset pairs ranged over by `for el in range(len(slices)-1)`. -/
def slicePairs (slices : List ℕ) : List (ℕ × ℕ) := slices.zip slices.tail

/-- Embeds `TopologyLayer.collapse_dim1` of models.py (lines 176-194): for each
adjacent offset pair, sum the activation rows of the slice selected by the
mask. -/
def collapseDim1M (d : ℕ) (act : Mat) (mask : List Bool) (slices : List ℕ) : Mat :=
  (slicePairs slices).map
    (fun p => vecSum d (maskedRows (sliceList p.1 p.2 act) (sliceList p.1 p.2 mask)))

/-- Embeds `TopologyLayer.collapse_dim1` of topolayer.py (lines 170-190): the
same loop, preceded by the defensive branch
`if len(slices) == 1: slices = torch.cat((slices, torch.LongTensor((0,))))`. -/
def collapseDim1T (d : ℕ) (act : Mat) (mask : List Bool) (slices : List ℕ) : Mat :=
  collapseDim1M d act mask (if slices.length = 1 then slices ++ [0] else slices)

/-- One persistence pair (birth, death). -/
abbrev Pair := ℚ × ℚ

/-- The per-pair test underlying `(persistences1 != 0).any(2)`: the pair
differs from the zero sentinel in some coordinate. -/
def pairNonzero (p : Pair) : Bool := p.1 != 0 || p.2 != 0

/-- Embeds `persistence1_mask = (persistences1 != 0).any(2).any(0)` (models.py
line 206, topolayer.py line 208) on the [channels, edges, 2] tensor
`persistences1` given as a list of per-channel pair lists: edge e is flagged
iff some channel's pair at e is nonzero in some coordinate. -/
def persistence1Mask (numEdges : ℕ) (ps : List (List Pair)) : List Bool :=
  (List.range numEdges).map
    (fun e => ps.any (fun pf => pairNonzero (pf.getD e (0, 0))))

/-- The claim-side selection for C3: the rows of `act` at the index positions
in [a, bnd) whose mask entry is true. -/
def flaggedRows (act : Mat) (mask : List Bool) (a bnd : ℕ) : Mat :=
  ((List.range' a (bnd - a)).filter (fun e => mask.getD e false)).map
    (fun e => act.getD e [])

theorem maskedRows_cons (x : Vec) (xs : Mat) (c : Bool) (cs : List Bool) :
    maskedRows (x :: xs) (c :: cs) =
      if c then x :: maskedRows xs cs else maskedRows xs cs := by
  cases c <;> simp [maskedRows, List.zip_cons_cons, List.filter, List.zip]

theorem maskedRows_eq_flaggedRows (act : Mat) (mask : List Bool) (n a : ℕ)
    (hact : a + n ≤ act.length) (hmask : a + n ≤ mask.length) :
    maskedRows ((act.drop a).take n) ((mask.drop a).take n) =
      ((List.range' a n).filter (fun e => mask.getD e false)).map
        (fun e => act.getD e []) := by
  induction n generalizing a with
  | zero => simp [maskedRows]
  | succ m ih =>
    have ha : a < act.length := by omega
    have hm : a < mask.length := by omega
    rw [List.drop_eq_getElem_cons ha, List.drop_eq_getElem_cons hm]
    rw [List.take_succ_cons, List.take_succ_cons, maskedRows_cons, List.range'_succ]
    have hgd : mask.getD a false = mask[a] := List.getD_eq_getElem mask false hm
    have hga : act.getD a [] = act[a] := List.getD_eq_getElem act [] ha
    have ihval := ih (a + 1) (by omega) (by omega)
    rw [List.filter_cons]
    simp only [hgd]
    cases hme : mask[a] with
    | false =>
      simp only [hme, Bool.false_eq_true, if_false]
      exact ihval
    | true =>
      simp only [hme, if_true, List.map_cons]
      rw [ihval, hga]

theorem slicePairs_get? (slices : List ℕ) (g a bnd : ℕ)
    (hg : slices.get? g = some a) (hg1 : slices.get? (g + 1) = some bnd) :
    (slicePairs slices).get? g = some (a, bnd) := by
  induction slices generalizing g with
  | nil => simp at hg
  | cons s rest ih =>
    cases rest with
    | nil =>
      cases g with
      | zero => simp at hg1
      | succ j => simp at hg
    | cons t rest' =>
      cases g with
      | zero =>
        have has : s = a := by simpa using hg
        have hbt : t = bnd := by simpa using hg1
        subst has; subst hbt
        simp [slicePairs, List.zip_cons_cons]
      | succ j =>
        have hg' : (t :: rest').get? j = some a := by simpa using hg
        have hg1' : (t :: rest').get? (j + 1) = some bnd := by simpa using hg1
        have := ih j hg' hg1'
        simpa [slicePairs, List.zip_cons_cons] using this

theorem persistence1Mask_length (numEdges : ℕ) (ps : List (List Pair)) :
    (persistence1Mask numEdges ps).length = numEdges := by
  simp [persistence1Mask]

theorem persistence1Mask_getD (numEdges : ℕ) (ps : List (List Pair)) (e : ℕ)
    (he : e < numEdges) :
    (persistence1Mask numEdges ps).getD e false =
      ps.any (fun pf => pairNonzero (pf.getD e (0, 0))) := by
  have hlen : e < (persistence1Mask numEdges ps).length := by
    rw [persistence1Mask_length]; exact he
  rw [List.getD_eq_getElem _ _ hlen]
  simp [persistence1Mask]

theorem pairNonzero_iff (p : Pair) : pairNonzero p = true ↔ p ≠ (0, 0) := by
  constructor
  · intro h hp
    subst hp
    simp [pairNonzero] at h
  · intro h
    rcases p with ⟨pb, pd⟩
    by_contra hb
    simp only [pairNonzero, Bool.or_eq_true, bne_iff_ne, not_or, not_not] at hb
    exact h (by simp [hb.1, hb.2])

/-- C3: for a batch whose edge-slice offsets have length G+1, row g of
collapse_dim1's output (models.py lines 176-194) equals the sum of the dim1
activation rows of graph g's edges flagged nonzero, where edge e is flagged
iff its persistence pair at some filtration channel differs from the all-zero
pair in some coordinate. -/
theorem collapse_dim1_sums_flagged_rows (d : ℕ) (act : Mat) (ps : List (List Pair))
    (slices : List ℕ) (mask : List Bool)
    (hmask : mask = persistence1Mask act.length ps)
    (g a bnd : ℕ) (hg : slices.get? g = some a) (hg1 : slices.get? (g + 1) = some bnd)
    (hab : a ≤ bnd) (hbnd : bnd ≤ act.length) :
    (collapseDim1M d act mask slices).get? g =
      some (vecSum d (flaggedRows act mask a bnd)) ∧
    ∀ e : ℕ, e < act.length →
      (mask.getD e false = true ↔ ∃ pf ∈ ps, pf.getD e (0, 0) ≠ (0, 0)) := by
  have hmlen : mask.length = act.length := by
    rw [hmask]; exact persistence1Mask_length _ _
  constructor
  · have hsp := slicePairs_get? slices g a bnd hg hg1
    have heq := maskedRows_eq_flaggedRows act mask (bnd - a) a
      (by omega) (by omega)
    simp only [collapseDim1M, List.get?_map, hsp, Option.map_some']
    rw [show sliceList a bnd act = (act.drop a).take (bnd - a) from rfl,
      show sliceList a bnd mask = (mask.drop a).take (bnd - a) from rfl, heq]
    rfl
  · intro e he
    rw [hmask, persistence1Mask_getD act.length ps e he, List.any_eq_true]
    constructor
    · rintro ⟨pf, hpf, hnz⟩
      exact ⟨pf, hpf, (pairNonzero_iff _).mp hnz⟩
    · rintro ⟨pf, hpf, hnz⟩
      exact ⟨pf, hpf, (pairNonzero_iff _).mpr hnz⟩

/-- Witness for C3 at a concrete input: three edges with one activation
channel, one filtration channel whose middle pair (1,2) is nonzero, and
offsets [0,2,3]; graph 0 covers edges 0 and 1 and only edge 1 is flagged, so
row 0 of the output is the single row [2]. -/
theorem collapse_dim1_sums_flagged_rows_witness :
    (collapseDim1M 1 [[(1 : ℚ)], [2], [3]]
        (persistence1Mask 3 [[((0 : ℚ), (0 : ℚ)), (1, 2), (0, 0)]]) [0, 2, 3]).get? 0 =
      some (vecSum 1 (flaggedRows [[(1 : ℚ)], [2], [3]]
        (persistence1Mask 3 [[((0 : ℚ), (0 : ℚ)), (1, 2), (0, 0)]]) 0 2)) ∧
    (∀ e : ℕ, e < 3 →
      ((persistence1Mask 3 [[((0 : ℚ), (0 : ℚ)), (1, 2), (0, 0)]]).getD e false = true ↔
        ∃ pf ∈ [[((0 : ℚ), (0 : ℚ)), (1, 2), (0, 0)]], pf.getD e (0, 0) ≠ (0, 0))) :=
  collapse_dim1_sums_flagged_rows 1 [[(1 : ℚ)], [2], [3]]
    [[((0 : ℚ), (0 : ℚ)), (1, 2), (0, 0)]] [0, 2, 3]
    (persistence1Mask 3 [[((0 : ℚ), (0 : ℚ)), (1, 2), (0, 0)]]) rfl
    0 0 2 rfl rfl (by decide) (by decide)

/-- C4 counterexample: with activations [[1]], mask [true] and the length-1
offset array [0], topolayer.py's collapse_dim1 returns the all-zero row, not
the masked sum [1] over the graph's single edge that the claim requires. -/
theorem collapse_dim1_degenerate_counterexample :
    collapseDim1T 1 [[(1 : ℚ)]] [true] [0] ≠
      [vecSum 1 (maskedRows [[(1 : ℚ)]] [true])] := by
  simp [collapseDim1T, collapseDim1M, slicePairs, sliceList, maskedRows, vecSum,
    zeroVec, addVec, List.zip, List.filter]

/-- C4 (amended): whenever the offset array passed to topolayer.py's
collapse_dim1 has length 1, the defensive branch appends the offset 0, so the
single produced slice runs from slices[0] to 0, is empty, and the returned
matrix is one all-zero row of the activation width. -/
theorem collapse_dim1_degenerate_zero (d : ℕ) (act : Mat) (mask : List Bool) (s : ℕ) :
    collapseDim1T d act mask [s] = [zeroVec d] := by
  simp [collapseDim1T, collapseDim1M, slicePairs, sliceList, maskedRows, vecSum]

/-- The configuration flags of `TopologyLayer.__init__` that the fusion code
reads (identical in both files). -/
structure TLConfig where
  features_in : ℕ
  features_out : ℕ
  dim1 : Bool
  residual_and_bn : Bool
  swap_bn_order : Bool
  dist_dim1 : Bool
deriving DecidableEq

/-- Output dimensionality of the `self.out` linear layer chosen by __init__
(topolayer.py lines 84-96, models.py lines 99-111): under residual_and_bn the
local variable features_out is reassigned to features_in before `self.out` is
built, so the constructor argument features_out is ignored there. -/
def initOutDim (cfg : TLConfig) : ℕ :=
  if cfg.residual_and_bn then cfg.features_in else cfg.features_out

/-- The learnable parameters of the fusion code: the `self.out` and `self.out1`
linear layers (weight rows and bias) and the per-channel affine form of
`self.bn` (BatchNorm1d in eval mode: scale = gamma/sqrt(var+eps), shift =
beta - mean*scale, held abstract as rational parameters). -/
structure TLParams where
  outWeight : Mat
  outBias : Vec
  out1Weight : Mat
  out1Bias : Vec
  bnScale : Vec
  bnShift : Vec
deriving DecidableEq

/-- Inner product of two rows. -/
def dotVec (a b : Vec) : ℚ := (List.zipWith (fun u v => u * v) a b).sum

/-- One linear layer `W v + b` applied to one row. -/
def linearForward (W : Mat) (bias : Vec) (v : Vec) : Vec :=
  List.zipWith (fun row bj => dotVec row v + bj) W bias

/-- BatchNorm1d applied to one row: per-channel scale then shift. -/
def bnForward (scale shift v : Vec) : Vec :=
  List.zipWith (fun w t => w + t) (List.zipWith (fun s u => s * u) scale v) shift

/-- Elementwise `F.relu`. -/
def reluVec (v : Vec) : Vec := v.map (fun u => max u 0)

/-- Embeds the fusion tail of `TopologyLayer.forward` (topolayer.py lines
216-233, models.py lines 215-232).  Inputs: per-node dim0 coordinate
activation rows `coord` and the optional per-graph dim1 activations `ga1`
(`graph_activations1`, none when dim1 is off).  In the residual branch with
dim1 and dist_dim1 both set, line 219 (models.py) / line 220 (topolayer.py)
executes `out_activations += self.out1(graph_activations1)[batch]`, where
`batch` is the PyG Batch object (models.py) or None (topolayer.py), not the
per-node membership vector `batch.batch`; tensor indexing with the Batch
object raises a TypeError, and `[None]` unsqueezes so the in-place add fails
on shape — that branch therefore raises, rendered as none.  Every other path
returns the pair (out_activations, graph_activations1) of the return
statement. -/
def forwardFuse (cfg : TLConfig) (p : TLParams) (x : Mat) (coord : Mat)
    (ga1 : Option Mat) : Option (Mat × Option Mat) :=
  if cfg.residual_and_bn then
    if cfg.dim1 && cfg.dist_dim1 then none
    else
      let proj := coord.map (linearForward p.outWeight p.outBias)
      let normed := proj.map (bnForward p.bnScale p.bnShift)
      if cfg.swap_bn_order then
        some (List.zipWith addVec x (normed.map reluVec), ga1)
      else
        some (List.zipWith addVec x normed, ga1)
  else
    some (List.zipWith
        (fun xr cr => reluVec (linearForward p.outWeight p.outBias (xr ++ cr)))
        x coord,
      ga1)

theorem linearForward_length (W : Mat) (bias : Vec) (v : Vec) :
    (linearForward W bias v).length = min W.length bias.length := by
  simp [linearForward]

theorem bnForward_length (scale shift v : Vec) :
    (bnForward scale shift v).length = min (min scale.length v.length) shift.length := by
  simp [bnForward]

theorem reluVec_length (v : Vec) : (reluVec v).length = v.length := by
  simp [reluVec]

theorem addVec_length (a b : Vec) : (addVec a b).length = min a.length b.length := by
  simp [addVec]


/-- C5: with residual_and_bn set (and the distinct dim1 head not active),
forward succeeds and returns x plus the batch-normalized linear projection of
the dim0 coordinate activations, with ReLU applied to the normalized
projection before the addition exactly when swap_bn_order is set; the
produced row has the width of the input row, and the `self.out` projection
width is features_in regardless of the features_out constructor argument. -/
theorem forward_residual_bn (cfg : TLConfig) (p : TLParams) (x coord : Mat)
    (ga1 : Option Mat) (n : ℕ) (xr cr : Vec)
    (hres : cfg.residual_and_bn = true) (hdist : cfg.dist_dim1 = false)
    (hW : p.outWeight.length = initOutDim cfg) (hb : p.outBias.length = initOutDim cfg)
    (hs : p.bnScale.length = cfg.features_in) (ht : p.bnShift.length = cfg.features_in)
    (hxn : x.get? n = some xr) (hcn : coord.get? n = some cr)
    (hxr : xr.length = cfg.features_in) :
    (∃ outAct ga1out, forwardFuse cfg p x coord ga1 = some (outAct, ga1out) ∧
      outAct.get? n =
        some (addVec xr
          (if cfg.swap_bn_order then
            reluVec (bnForward p.bnScale p.bnShift (linearForward p.outWeight p.outBias cr))
          else bnForward p.bnScale p.bnShift (linearForward p.outWeight p.outBias cr)))) ∧
    (addVec xr
        (if cfg.swap_bn_order then
          reluVec (bnForward p.bnScale p.bnShift (linearForward p.outWeight p.outBias cr))
        else bnForward p.bnScale p.bnShift (linearForward p.outWeight p.outBias cr))).length
      = cfg.features_in ∧
    initOutDim cfg = cfg.features_in := by
  have hout : initOutDim cfg = cfg.features_in := by simp [initOutDim, hres]
  have hdd : (cfg.dim1 && cfg.dist_dim1) = false := by simp [hdist]
  have hlin : (linearForward p.outWeight p.outBias cr).length = cfg.features_in := by
    rw [linearForward_length, hW, hb, hout, Nat.min_self]
  have hbn :
      (bnForward p.bnScale p.bnShift (linearForward p.outWeight p.outBias cr)).length
        = cfg.features_in := by
    rw [bnForward_length, hs, ht, hlin, Nat.min_self, Nat.min_self]
  refine ⟨?_, ?_, hout⟩
  · simp only [forwardFuse, hres, if_true, hdd, Bool.false_eq_true, if_false]
    cases hsw : cfg.swap_bn_order with
    | true =>
      simp only [if_true]
      refine ⟨_, ga1, rfl, ?_⟩
      rw [List.get?_zipWith_eq_some]
      exact ⟨xr, _, hxn, by rw [List.get?_map, List.get?_map, List.get?_map, hcn]; rfl, rfl⟩
    | false =>
      simp only [Bool.false_eq_true, if_false]
      refine ⟨_, ga1, rfl, ?_⟩
      rw [List.get?_zipWith_eq_some]
      exact ⟨xr, _, hxn, by rw [List.get?_map, List.get?_map, hcn]; rfl, rfl⟩
  · cases hsw : cfg.swap_bn_order with
    | true =>
      simp only [if_true]
      rw [addVec_length, hxr, reluVec_length, hbn, Nat.min_self]
    | false =>
      simp only [Bool.false_eq_true, if_false]
      rw [addVec_length, hxr, hbn, Nat.min_self]

/-- Witness for C5 at a concrete input: features_in = 1, features_out = 7,
one node with x = [10], coord activations [1]; the projection is 2*1+3 = 5,
the affine normalization is 4*5+5 = 25, and no ReLU since swap_bn_order is
off, so the output row is [35] of width 1. -/
theorem forward_residual_bn_witness :
    (∃ outAct ga1out,
      forwardFuse (TLConfig.mk 1 7 false true false false)
          (TLParams.mk [[2]] [3] [] [] [4] [5]) [[(10 : ℚ)]] [[1]] none =
        some (outAct, ga1out) ∧
      outAct.get? 0 =
        some (addVec [(10 : ℚ)]
          (if (TLConfig.mk 1 7 false true false false).swap_bn_order then
            reluVec (bnForward [4] [5] (linearForward [[2]] [3] [1]))
          else bnForward [4] [5] (linearForward [[2]] [3] [1])))) ∧
    (addVec [(10 : ℚ)]
        (if (TLConfig.mk 1 7 false true false false).swap_bn_order then
          reluVec (bnForward [4] [5] (linearForward [[2]] [3] [1]))
        else bnForward [4] [5] (linearForward [[2]] [3] [1]))).length = 1 ∧
    initOutDim (TLConfig.mk 1 7 false true false false) = 1 :=
  forward_residual_bn (TLConfig.mk 1 7 false true false false)
    (TLParams.mk [[2]] [3] [] [] [4] [5]) [[(10 : ℚ)]] [[1]] none 0 [10] [1]
    rfl rfl rfl rfl rfl rfl rfl rfl rfl

/-- C6: evaluation at the failing input.  In residual mode with dim1 and
dist_dim1 both set, forward raises at
`out_activations += self.out1(graph_activations1)[batch]` (models.py line
219, topolayer.py line 220): `batch` there is the Batch object (resp. None),
not the membership vector `batch.batch`, so the projected per-graph dim1 rows
are never broadcast to the nodes and no second output is produced.  With
dist_dim1 not set, the per-graph dim1 activations pass through unchanged as
the second output, in residual and in concat mode alike. -/
theorem forward_dist_dim1_raises :
    forwardFuse (TLConfig.mk 1 1 true true false true)
        (TLParams.mk [[1]] [0] [[2]] [0] [1] [0]) [[(100 : ℚ)]] [[3]]
        (some [[5]]) = none ∧
    (forwardFuse (TLConfig.mk 1 1 true true false false)
        (TLParams.mk [[1]] [0] [[2]] [0] [1] [0]) [[(100 : ℚ)]] [[3]]
        (some [[5]])).bind (fun res => res.2) = some [[5]] ∧
    (forwardFuse (TLConfig.mk 1 1 true false false false)
        (TLParams.mk [[1]] [0] [[2]] [0] [1] [0]) [[(100 : ℚ)]] [[3]]
        (some [[5]])).bind (fun res => res.2) = some [[5]] :=
  ⟨rfl, rfl, rfl⟩

/-- An edge paired with its filtration value and original index, as ordered by
the persistence engine. -/
structure FiltEdge where
  src : ℕ
  dst : ℕ
  val : ℚ
  idx : ℕ
deriving DecidableEq

/-- Ascending edge-filtration order with the spec's canonical tie-break by
original edge index. -/
def filtEdgeLE (a b : FiltEdge) : Prop :=
  a.val < b.val ∨ (a.val = b.val ∧ a.idx ≤ b.idx)

instance : DecidableRel filtEdgeLE :=
  fun a b => by unfold filtEdgeLE; infer_instance

/-- Union-find state of one (graph, channel) run: the component representative
of every vertex, and the dim0 output slot per vertex. -/
structure PersState where
  comp : List ℕ
  pairs0 : List Pair
deriving DecidableEq

/-- Each vertex starts as its own component with birth its own filtration
value; the dim0 slots start as the zero-persistence pairs (birth, birth). -/
def initPersState (filt : Vec) : PersState :=
  PersState.mk (List.range filt.length) (filt.map (fun a => (a, a)))

/-- Representative lookup in the flattened union-find map. -/
def ufFind (comp : List ℕ) (v : ℕ) : ℕ := comp.getD v v

/-- Modelled from the spec: one step of the per-(graph, channel) persistence
loop of the external C++ engine (spec section 4.2).  If the edge's endpoints
already share a component it is a cycle edge and its index is reported for
dim1; otherwise the component with the lower birth emits its dim0 pair
(birth, edge value) into its representative's slot and the other component
absorbs it (births equal: the lower representative index emits). -/
def ufStep (filt : Vec) (st : PersState) (e : FiltEdge) : PersState × Option ℕ :=
  let ru := ufFind st.comp e.src
  let rv := ufFind st.comp e.dst
  if ru = rv then (st, some e.idx)
  else
    let bu := filt.getD ru 0
    let bv := filt.getD rv 0
    let low := if bu < bv then ru else if bv < bu then rv else min ru rv
    let high := if bu < bv then rv else if bv < bu then ru else max ru rv
    (PersState.mk (st.comp.map (fun c => if c = low then high else c))
      (st.pairs0.set low (filt.getD low 0, e.val)), none)

/-- Modelled from the spec: the engine's strictly sequential per-graph loop
over the sorted edges, collecting the indices of the cycle edges. -/
def persFold (filt : Vec) (st : PersState) (cycles : List ℕ) :
    List FiltEdge → PersState × List ℕ
  | [] => (st, cycles)
  | e :: rest =>
    match ufStep filt st e with
    | (st2, some i) => persFold filt st2 (cycles ++ [i]) rest
    | (st2, none) => persFold filt st2 cycles rest

/-- Modelled from the spec: the per-(graph, channel) computation of
`compute_persistence_homology_batched_mt` (imported from
torch_persistent_homology, not among the sources; spec sections 4.2 and 7).
Edges are sorted ascending by filtration value with tie-break by original
index and processed by union-find; dim0 has one pair per vertex (survivors
keep (birth, birth)); dim1 has one pair per edge, (own value, last processed
value) for cycle edges and the zero pair otherwise. -/
def persistenceDiagramsSpec (filt : Vec) (edges : List Edge) (edgeVals : Vec) :
    List Pair × List Pair :=
  let fedges := (List.range edges.length).map
    (fun i => FiltEdge.mk (edges.getD i (0, 0)).1 (edges.getD i (0, 0)).2
      (edgeVals.getD i 0) i)
  let sorted := fedges.insertionSort filtEdgeLE
  let lastVal := match sorted.getLast? with
    | some e => e.val
    | none => 0
  let res := persFold filt (initPersState filt) [] sorted
  (res.1.pairs0,
    (List.range edges.length).map
      (fun i => if i ∈ res.2 then (edgeVals.getD i 0, lastVal) else (0, 0)))

/-- Modelled from the spec: the engine's entry validation (spec sections 4.2
and 7): malformed input — here an edge endpoint out of the vertex range —
fails fatally before any computation, rendered as none. -/
def computePersistenceGraph (filt : Vec) (edges : List Edge) (edgeVals : Vec) :
    Option (List Pair × List Pair) :=
  if edges.all (fun e => decide (e.1 < filt.length) && decide (e.2 < filt.length)) then
    some (persistenceDiagramsSpec filt edges edgeVals)
  else none

/-- C7: a graph with V vertices and zero edges is not an error: the
computation succeeds and returns exactly V dim0 pairs, each the vertex's own
filtration value paired with itself, and an empty (all-zero) dim1 output;
this holds per filtration channel. -/
theorem persistence_zero_edges (filt : Vec) :
    computePersistenceGraph filt [] [] =
      some (filt.map (fun a => (a, a)), []) ∧
    (filt.map (fun a : ℚ => (a, a))).length = filt.length := by
  constructor
  · simp [computePersistenceGraph, persistenceDiagramsSpec, persFold,
      initPersState, List.insertionSort]
  · simp

/-- Embeds the offset construction of `TopologyLayer.compute_persistence` in
topolayer.py (lines 113-116) for batch = None:
`vertex_slices = torch.Tensor((x.shape[0],)).long()` and
`edge_slices = torch.Tensor((edge_index.shape[0],)).long()`, one-element
tensors; `edge_index` has shape [2, E], so `edge_index.shape[0]` is its row
count 2, not the edge count. -/
def computePersistenceSlicesT (x : Mat) (edge_index : List (List ℕ)) :
    List ℕ × List ℕ :=
  ([x.length], [edge_index.length])

/-- The packed-batch offset invariant of the spec (section 3): first entry 0,
last entry the total count, entries nondecreasing. -/
def offsetsValid (slices : List ℕ) (total : ℕ) : Prop :=
  slices.head? = some 0 ∧ slices.getLast? = some total ∧
    List.Chain' (fun a b => a ≤ b) slices

/-- C8: evaluation at the failing input.  For x with 3 vertices and
edge_index [[0,1,2],[1,2,0]] holding E = 3 edges, compute_persistence with
batch = None constructs vertex_slices = [3] and edge_slices = [2]; neither is
a valid offset array for its total (vertex slices start at 3, not 0, and the
edge slices end at 2 while E = 3). -/
theorem compute_persistence_slices_invalid :
    computePersistenceSlicesT [[0], [0], [0]] [[0, 1, 2], [1, 2, 0]] = ([3], [2]) ∧
    ¬ offsetsValid [3] 3 ∧
    ¬ offsetsValid [2] (([[0, 1, 2], [1, 2, 0]].getD 0 []).length) := by
  refine ⟨rfl, ?_, ?_⟩
  · rintro ⟨h0, hl, hc⟩
    simp at h0
  · rintro ⟨h0, hl, hc⟩
    simp at h0

/-- Embeds the slice availability in topolayer.py's compute_persistence
(lines 113-121): for batch = None the one-element tensors above are built; for
an actual batch the assigning lines 119-120 are commented out, so the reads of
vertex_slices and edge_slices on lines 125-128 hit unbound local variables and
raise NameError — rendered as none. -/
def computePersistenceSlicesTFull (batchGiven : Bool) (x : Mat)
    (edge_index : List (List ℕ)) : Option (List ℕ × List ℕ) :=
  if batchGiven then none
  else some (computePersistenceSlicesT x edge_index)

/-- C10 counterexample: on the well-formed batch with edges [(0,1),(1,0)] and
offsets [0,2], models.py's forward hands the persistence stage the reduced
edge list while topolayer.py's forward hands it the unfiltered one, and
topolayer.py's compute_persistence cannot even build its slice arrays for a
batched input; the two implementations do not compute identical outputs. -/
theorem topology_layer_equivalence_counterexample :
    forwardPersistenceEdgesM (PyGBatch.mk [(0, 1), (1, 0)] [0, 2]) ≠
      forwardPersistenceEdgesT [(0, 1), (1, 0)] ∧
    computePersistenceSlicesTFull true [[(0 : ℚ)], [0]] [[0, 1], [1, 0]] = none := by
  exact ⟨by decide, rfl⟩

/-- C10 (amended): the two implementations agree on the shared aggregation
code — collapse_dim1 coincides on every offset array of length other than 1 —
and models.py's forward reduces the edges before persistence, while
topolayer.py's slice construction for batched input is unavailable, so
output equivalence on every well-formed batch fails. -/
theorem topology_layer_shared_code_agreement (d : ℕ) (act : Mat)
    (mask : List Bool) (slices : List ℕ) (h : slices.length ≠ 1) :
    collapseDim1T d act mask slices = collapseDim1M d act mask slices ∧
    (∀ b : PyGBatch, forwardPersistenceEdgesM b = (removeDuplicateEdgesDU b).edges) ∧
    (∀ (x : Mat) (ei : List (List ℕ)),
      computePersistenceSlicesTFull true x ei = none) :=
  ⟨by simp [collapseDim1T, h], fun b => rfl, fun x ei => rfl⟩

/-- Witness for C10 (amended) at a concrete input: the offset array [0, 1] has
length 2, so both collapse_dim1 implementations produce the same output. -/
theorem topology_layer_shared_code_agreement_witness :
    collapseDim1T 1 [[(1 : ℚ)]] [true] [0, 1] = collapseDim1M 1 [[(1 : ℚ)]] [true] [0, 1] ∧
    (∀ b : PyGBatch, forwardPersistenceEdgesM b = (removeDuplicateEdgesDU b).edges) ∧
    (∀ (x : Mat) (ei : List (List ℕ)),
      computePersistenceSlicesTFull true x ei = none) :=
  topology_layer_shared_code_agreement 1 [[(1 : ℚ)]] [true] [0, 1] (by decide)
